import Mathlib

/-!
# Verification of the Davidson baseball scoring pipeline (src/app.py)

Shallow embedding of the pipeline in `src/app.py`:
ingestion (`load_and_filter_trackman`), scoring (`calculate_batter_scores`),
grading (`get_grade`), name normalization, merge with the TruMedia table and
final sort (body of `upload`).

Modelling conventions:
* pandas cell values are `Option Val` with `Val` either a string or a
  number; a missing cell (NaN) is `none`.  Numbers are rationals: every
  numeric literal of the program (0.25, 2, 1.5, 1, 4, the grade cut points
  and the zone bounds) is a dyadic rational that IEEE-754 doubles represent
  exactly, and the accumulated scores stay small dyadic rationals, so float
  arithmetic in the program coincides with exact rational arithmetic.
* cells are assumed typed per the data model of the spec (section 3):
  location columns numeric, the categorical columns strings.  The typed
  readers `asStr` / `asNum` below return `none` on a wrong-typed cell;
  pandas dtype coercion on ill-typed CSV content is outside the model.
* Python dicts are association lists in insertion order; `dict.get`,
  membership and update are modelled by first-occurrence lookup and
  in-place update.
* fallible steps return `Except String _`; an unparseable file is `none`
  in `Option RawFile`.
-/

/-- A pandas cell value: a string or a (rational) number. -/
inductive Val where
  | s (v : String)
  | n (q : ℚ)
deriving DecidableEq, Repr

/-- The fields of one pitch-event row that `calculate_batter_scores`
reads, already extracted with their types.  `none` stands for a missing
column as well as a NaN cell: every use in the source (equality with a
string constant, `pd.notna`) treats the two alike. -/
structure PitchRow where
  batter : Option String
  pitchCall : Option String
  korbb : Option String
  playResult : Option String
  height : Option ℚ
  side : Option ℚ
deriving DecidableEq, Repr

/-- Contribution of the `PitchCall` if/elif chain of
`calculate_batter_scores` (src/app.py lines 67-76) for one row. -/
def contribOfPitch (r : PitchRow) : ℚ :=
  if r.pitchCall = some "BallCalled" then 0.25
  else if r.pitchCall = some "StrikeCalled" ∧ r.korbb = some "Strikeout" then -2
  else if r.pitchCall = some "StrikeSwinging" then
    if r.korbb = some "Strikeout" then -1.5
    else
      match r.height, r.side with
      | some h, some sd =>
          if ¬ ((1.5 : ℚ) ≤ h ∧ h ≤ (3.6 : ℚ) ∧ (-0.75 : ℚ) ≤ sd ∧ sd ≤ (0.75 : ℚ))
          then -1 else 0
      | _, _ => 0
  else 0

/-- The independent HomeRun bonus (src/app.py lines 77-78). -/
def homeRunBonus (r : PitchRow) : ℚ :=
  if r.playResult = some "HomeRun" then 4 else 0

/-- Net contribution of one row to its batter: the sequential `+=`
updates of the loop body amount to adding this sum. -/
def rowContrib (r : PitchRow) : ℚ :=
  contribOfPitch r + homeRunBonus r

/-- `batter not in scores: scores[batter] = 0` — append a default entry
when the key is absent (Python dicts keep insertion order). -/
def ensureKey (d : List (String × ℚ)) (b : String) : List (String × ℚ) :=
  if d.any (fun p => p.1 = b) then d else d ++ [(b, 0)]

/-- `scores[batter] += v` on a dict modelled as an association list. -/
def addTo (d : List (String × ℚ)) (b : String) (v : ℚ) : List (String × ℚ) :=
  d.map (fun p => if p.1 = b then (p.1, p.2 + v) else p)

/-- One iteration of the row loop of `calculate_batter_scores`:
skip a NaN batter, otherwise default-insert and add the contribution. -/
def calcStep (d : List (String × ℚ)) (r : PitchRow) : List (String × ℚ) :=
  match r.batter with
  | none => d
  | some b => addTo (ensureKey d b) b (rowContrib r)

/-- `calculate_batter_scores` (src/app.py lines 41-80) on rows already
extracted as `PitchRow`s: fold the loop body over the rows in order. -/
def calculate_batter_scores (rows : List PitchRow) : List (String × ℚ) :=
  rows.foldl calcStep []

/-- First-occurrence lookup in a dict modelled as an association list. -/
def dictFind (d : List (String × ℚ)) (b : String) : Option ℚ :=
  (d.find? (fun p => p.1 = b)).map (fun p => p.2)

/-- `get_grade` (src/app.py lines 82-109), verbatim threshold chain. -/
def get_grade (score : ℚ) : String :=
  if score < -0.5 then "C-"
  else if score < 0.0 then "C"
  else if score < 0.5 then "C+"
  else if score < 1.0 then "B-"
  else if score < 1.5 then "B"
  else if score < 2.0 then "B+"
  else if score < 2.5 then "A-"
  else if score < 3.0 then "A"
  else "A+"

/-- The double-quote character, U+0022. -/
def quoteChar : Char := Char.ofNat 34

/-- Python `str.split()` whitespace (ASCII part): space, tab, newline,
carriage return, vertical tab, form feed. -/
def isPySpace (c : Char) : Bool :=
  c = ' ' ∨ c = Char.ofNat 9 ∨ c = Char.ofNat 10 ∨
  c = Char.ofNat 13 ∨ c = Char.ofNat 11 ∨ c = Char.ofNat 12

/-- Python `str.split()` with no separator: split on runs of whitespace,
discarding empty tokens.  `acc` holds the current token reversed. -/
def pySplitAux : List Char → List Char → List (List Char)
  | [], acc => if acc.isEmpty then [] else [acc.reverse]
  | c :: rest, acc =>
      if isPySpace c then
        if acc.isEmpty then pySplitAux rest []
        else acc.reverse :: pySplitAux rest []
      else pySplitAux rest (c :: acc)

/-- Python `s.split()` returning the list of tokens as strings. -/
def pySplit (s : String) : List String :=
  (pySplitAux s.data []).map (fun l => String.mk l)

/-- The name-normalization lambda of `upload` (src/app.py lines 131-133):
drop every double quote and comma, split on whitespace, reverse the token
order, re-join with single spaces. -/
def normalizeName (b : String) : String :=
  String.intercalate " "
    ((pySplit (String.mk (b.data.filter (fun c => c ≠ quoteChar ∧ c ≠ ',')))).reverse)

/-- A parsed tabular file: the header row and the data rows, cells
positional under the headers.  An unparseable upload is modelled as
`none` at type `Option RawFile`. -/
structure RawFile where
  headers : List String
  rows : List (List (Option Val))
deriving DecidableEq, Repr

/-- A dataframe produced by the pipeline: column names plus rows. -/
structure FTable where
  cols : List String
  rows : List (List (Option Val))
deriving DecidableEq, Repr

/-- Value of column `c` in row `r` laid out by `hs` (first occurrence;
an absent column or a short row reads as a missing cell). -/
def cellAt (hs : List String) (r : List (Option Val)) (c : String) : Option Val :=
  match hs.findIdx? (fun h => h = c) with
  | none => none
  | some i => r.getD i none

/-- `desired_columns` of `load_and_filter_trackman` (src/app.py line 22). -/
def desired_columns : List String :=
  ["Batter", "PlateLocHeight", "PlateLocSide", "PitchCall", "KorBB", "PlayResult"]

/-- Per-file body of `load_and_filter_trackman` (src/app.py lines 26-29):
strip the headers, keep the desired columns that are present (in the fixed
order of `desired_columns`, as the list comprehension iterates it), and
drop the rows whose Batter cell is missing.  `dropna(subset=["Batter"])`
raises a `KeyError` when the filtered frame has no Batter column. -/
def filterFile (f : RawFile) : Except String FTable :=
  let hs := f.headers.map (fun h => h.trim)
  let kept := desired_columns.filter (fun c => hs.contains c)
  let rows := f.rows.map (fun r => kept.map (fun c => cellAt hs r c))
  if kept.contains "Batter" then
    Except.ok ⟨kept, rows.filter (fun r => (cellAt kept r "Batter").isSome)⟩
  else Except.error "KeyError: Batter"

/-- `not filtered.empty and not filtered.isna().all().all()`
(src/app.py line 32). -/
def keepTable (t : FTable) : Bool :=
  (!t.rows.isEmpty) && !(t.rows.all (fun r => r.all (fun c => c.isNone)))

/-- Columns of `pd.concat`: union in order of first appearance. -/
def concatCols (ts : List FTable) : List String :=
  ts.foldl (fun acc t => acc ++ t.cols.filter (fun c => !acc.contains c)) []

/-- `pd.concat(filtered_dfs, ignore_index=True)` (src/app.py line 39):
rows in file order, each reindexed to the union of the columns, a column
a file lacks reading as NaN. -/
def concatTables (ts : List FTable) : FTable :=
  let cs := concatCols ts
  ⟨cs, (ts.map (fun t => t.rows.map (fun r => cs.map (fun c => cellAt t.cols r c)))).flatten⟩

/-- The loop of `load_and_filter_trackman` over the uploaded files: an
unparseable file aborts (`pd.read_csv` raises), a filter error aborts,
and the tables passing `keepTable` are collected in order. -/
def loadAux : List (Option RawFile) → Except String (List FTable)
  | [] => Except.ok []
  | none :: _ => Except.error "ParserError"
  | some f :: rest =>
    match filterFile f with
    | Except.error e => Except.error e
    | Except.ok t =>
      match loadAux rest with
      | Except.error e => Except.error e
      | Except.ok ts => Except.ok (if keepTable t then t :: ts else ts)

/-- `load_and_filter_trackman` (src/app.py lines 12-39). -/
def load_and_filter_trackman (files : List (Option RawFile)) : Except String FTable :=
  match loadAux files with
  | Except.error e => Except.error e
  | Except.ok ts =>
    if ts.isEmpty then Except.ok ⟨desired_columns, []⟩ else Except.ok (concatTables ts)

/-- Typed cell readers, per the data model of section 3 of the spec
(categorical columns hold strings, location columns hold floats); pandas
dtype coercion of ill-typed CSV content is outside the model. -/
def asStr : Option Val → Option String
  | some (Val.s v) => some v
  | _ => none

/-- Numeric cell reader, see `asStr`. -/
def asNum : Option Val → Option ℚ
  | some (Val.n q) => some q
  | _ => none

/-- The fields the scoring loop reads from a table row.  A `row.get`
default for an absent column behaves like NaN at every use site, so both
collapse to `none`. -/
def toPitchRow (cols : List String) (r : List (Option Val)) : PitchRow :=
  { batter := asStr (cellAt cols r "Batter")
    pitchCall := asStr (cellAt cols r "PitchCall")
    korbb := asStr (cellAt cols r "KorBB")
    playResult := asStr (cellAt cols r "PlayResult")
    height := asNum (cellAt cols r "PlateLocHeight")
    side := asNum (cellAt cols r "PlateLocSide") }

/-- `calculate_batter_scores` row loop over a dataframe: the direct
indexings `row['Batter']` (line 54) and `row['PitchCall']` (line 55)
raise `KeyError` when the column is absent and a row is being iterated;
the remaining fields use `row.get` and cannot raise. -/
def calcRowsAux (cols : List String) :
    List (List (Option Val)) → List (String × ℚ) → Except String (List (String × ℚ))
  | [], d => Except.ok d
  | r :: rest, d =>
    if !cols.contains "Batter" then Except.error "KeyError: Batter"
    else if !cols.contains "PitchCall" then Except.error "KeyError: PitchCall"
    else calcRowsAux cols rest (calcStep d (toPitchRow cols r))

/-- `calculate_batter_scores` (src/app.py lines 41-80) on a dataframe. -/
def calcScoresTable (t : FTable) : Except String (List (String × ℚ)) :=
  calcRowsAux t.cols t.rows []

/-- One row of `score_df` (src/app.py lines 129-133). -/
structure ScoreRow where
  batter : String
  decisionScore : ℚ
  grade : String
  normalizedName : String
deriving DecidableEq, Repr

/-- Building one `score_df` row from one `scores.items()` pair. -/
def mkScoreRow (p : String × ℚ) : ScoreRow :=
  ⟨p.1, p.2, get_grade p.2, normalizeName p.1⟩

/-- `score_df` (src/app.py lines 129-133), rows in dict order. -/
def score_df (scores : List (String × ℚ)) : List ScoreRow :=
  scores.map mkScoreRow

/-- Dict insertion: a present key is overwritten in place, a new key is
appended. -/
def upsert (m : List (String × String × ℚ)) (k : String) (v : String × ℚ) :
    List (String × String × ℚ) :=
  if m.any (fun p => p.1 = k) then
    m.map (fun p => if p.1 = k then (k, v) else p)
  else m ++ [(k, v)]

/-- The `score_map` dict comprehension (src/app.py lines 134-137): score
rows are inserted in order, so a later row with the same normalized name
silently overwrites an earlier one. -/
def score_map (rows : List ScoreRow) : List (String × String × ℚ) :=
  rows.foldl (fun m sr => upsert m sr.normalizedName (sr.grade, sr.decisionScore)) []

/-- `score_map.get(name, {})` (src/app.py line 145). -/
def mapFind (m : List (String × String × ℚ)) (k : String) : Option (String × ℚ) :=
  (m.find? (fun p => p.1 = k)).map (fun p => p.2)

/-- `df[c] = vals`: overwrite an existing column in place, else append it
on the right. -/
def setCol (t : FTable) (c : String) (vals : List (Option Val)) : FTable :=
  match t.cols.findIdx? (fun h => h = c) with
  | some i => ⟨t.cols, (t.rows.zip vals).map (fun p => p.1.set i p.2)⟩
  | none => ⟨t.cols ++ [c], (t.rows.zip vals).map (fun p => p.1 ++ [p.2])⟩

/-- `Series.str.strip()` on the `playerFullName` column (line 141):
string cells are trimmed, non-string and missing cells become NaN. -/
def trimCell : Option Val → Option Val
  | some (Val.s v) => some (Val.s v.trim)
  | _ => none

/-- Grade and decisionScore cells for one normalized-name cell
(src/app.py lines 143-147): a dict hit attaches the stored pair, a miss
or a missing name attaches `np.nan` for both. -/
def lookupCells (smap : List (String × String × ℚ)) (c : Option Val) :
    Option Val × Option Val :=
  match c with
  | some (Val.s nm) =>
    match mapFind smap nm with
    | some gs => (some (Val.s gs.1), some (Val.n gs.2))
    | none => (none, none)
  | _ => (none, none)

/-- Step 3 of `upload` (src/app.py lines 141-150): the dataframe after
the three column assignments — NormalizedName (trimmed playerFullName),
then Grade and decisionScore from the dict lookups. -/
def mergeT3 (tm : RawFile) (smap : List (String × String × ℚ)) : FTable :=
  let normCells := tm.rows.map (fun r => trimCell (cellAt tm.headers r "playerFullName"))
  let looked := normCells.map (fun c => lookupCells smap c)
  setCol (setCol (setCol ⟨tm.headers, tm.rows⟩ "NormalizedName" normCells)
      "Grade" (looked.map (fun p => p.1)))
    "decisionScore" (looked.map (fun p => p.2))

/-- Step 4 of `upload` (src/app.py lines 153-157): compute the insert
position from the full column list, remove the three assigned columns
(first occurrence each, as `list.remove` does), splice Grade and
decisionScore back in after `playerFirstName`, and reindex the rows.
`cols.remove` always succeeds because the three columns were just
assigned. -/
def reindexAfterFirstName (t : FTable) : FTable :=
  let insertIdx := (t.cols.findIdx (fun h => h = "playerFirstName")) + 1
  let cols' := ((t.cols.erase "Grade").erase "decisionScore").erase "NormalizedName"
  let reordered :=
    cols'.take insertIdx ++ ["Grade", "decisionScore"] ++ cols'.drop insertIdx
  ⟨reordered, t.rows.map (fun r => reordered.map (fun c => cellAt t.cols r c))⟩

/-- Steps 3-4 of `upload` (src/app.py lines 140-157, before the sort).
A missing `playerFullName` raises `KeyError` at line 141; a missing
`playerFirstName` raises `ValueError` at `list.index` on line 153. -/
def mergeStep (tm : RawFile) (smap : List (String × String × ℚ)) :
    Except String FTable :=
  if tm.headers.contains "playerFullName" then
    if (mergeT3 tm smap).cols.contains "playerFirstName" then
      Except.ok (reindexAfterFirstName (mergeT3 tm smap))
    else Except.error "ValueError: playerFirstName is not in list"
  else Except.error "KeyError: playerFullName"

/-- The three cells the merge appends to a player row (fresh-column
case): the trimmed name and the looked-up grade and score. -/
def attachedCells (hs : List String) (smap : List (String × String × ℚ))
    (r : List (Option Val)) : List (Option Val) :=
  [trimCell (cellAt hs r "playerFullName"),
   (lookupCells smap (trimCell (cellAt hs r "playerFullName"))).1,
   (lookupCells smap (trimCell (cellAt hs r "playerFullName"))).2]

/-- Sort key of the final sort: the `decisionScore` cell of a row. -/
def rowScore (cols : List String) (r : List (Option Val)) : Option ℚ :=
  asNum (cellAt cols r "decisionScore")

/-- Key comparison of `sort_values(by="decisionScore", ascending=False)`
with the default `na_position='last'`: higher scores first, missing
scores after all present ones. -/
def scoreLe (a b : Option ℚ) : Bool :=
  match a, b with
  | some x, some y => decide (y ≤ x)
  | some _, none => true
  | none, some _ => false
  | none, none => true

/-- Ordered insertion for the sort model. -/
def insertSorted (le : List (Option Val) → List (Option Val) → Bool)
    (a : List (Option Val)) : List (List (Option Val)) → List (List (Option Val))
  | [] => [a]
  | b :: l => if le a b then a :: b :: l else b :: insertSorted le a l

/-- Insertion sort (stable).  The program's `sort_values` keeps the same
row multiset and the same key order; its default quicksort does not pin
down tie order, and no theorem below relies on the model's tie order. -/
def sortRows (le : List (Option Val) → List (Option Val) → Bool) :
    List (List (Option Val)) → List (List (Option Val))
  | [] => []
  | a :: l => insertSorted le a (sortRows le l)

/-- `sort_values(by="decisionScore", ascending=False)` (line 158). -/
def sortStep (t : FTable) : FTable :=
  ⟨t.cols, sortRows (fun r1 r2 => scoreLe (rowScore t.cols r1) (rowScore t.cols r2)) t.rows⟩

/-- The data pipeline of `upload` (src/app.py lines 124-158): everything
up to the final sorted table handed to the Excel exporter.  Styling and
HTTP transport are out of scope; the `try/except` boundary surfaces any
`Except.error` as the failure response. -/
def uploadModel (trackman : List (Option RawFile)) (trumedia : Option RawFile) :
    Except String FTable :=
  match load_and_filter_trackman trackman with
  | Except.error e => Except.error e
  | Except.ok combined =>
    match calcScoresTable combined with
    | Except.error e => Except.error e
    | Except.ok scores =>
      match trumedia with
      | none => Except.error "ParserError"
      | some tm =>
        match mergeStep tm (score_map (score_df scores)) with
        | Except.error e => Except.error e
        | Except.ok merged => Except.ok (sortStep merged)

/-! ## Claim-side definitions

These follow the wording of the specification, for comparison with the
definitions above, which are translated from the source. -/

/-- Claim side (C1): a swinging strike with both locations present and
the point outside the named rectangle. -/
def outsideZone : Option ℚ → Option ℚ → Bool
  | some h, some sd =>
      !(decide ((1.5 : ℚ) ≤ h ∧ h ≤ (3.6 : ℚ) ∧ (-0.75 : ℚ) ≤ sd ∧ sd ≤ (0.75 : ℚ)))
  | _, _ => false

/-- Claim side (C1): the rule table with the exact precedence the spec
states — BallCalled, then called-strikeout, then the swinging-strike
subcases, any other PitchCall contributing 0. -/
def specPitchContrib (r : PitchRow) : ℚ :=
  if r.pitchCall = some "BallCalled" then 0.25
  else if r.pitchCall = some "StrikeCalled" ∧ r.korbb = some "Strikeout" then -2
  else if r.pitchCall = some "StrikeSwinging" then
    if r.korbb = some "Strikeout" then -1.5
    else if outsideZone r.height r.side then -1 else 0
  else 0

/-- Claim side (C3): the grade partition read from the upper ends — a
score at or above a cut point earns at least that bracket's grade, so
each boundary is inclusive on the upper side, every score below -0.5 is
a C- and every score at or above 3.0 is an A+. -/
def specGrade (s : ℚ) : String :=
  if 3.0 ≤ s then "A+"
  else if 2.5 ≤ s then "A"
  else if 2.0 ≤ s then "A-"
  else if 1.5 ≤ s then "B+"
  else if 1.0 ≤ s then "B"
  else if 0.5 ≤ s then "B-"
  else if 0.0 ≤ s then "C+"
  else if -0.5 ≤ s then "C"
  else "C-"

/-- Claim side (C4): remove exactly the double-quote and comma
characters. -/
def removeQuotesCommas (s : String) : String :=
  String.mk (s.data.filter (fun c => ¬ (c = quoteChar ∨ c = ',')))

/-- Claim side (C4): strip quotes and commas, split on whitespace,
reverse the token order, rejoin with single spaces. -/
def specNormalizeName (s : String) : String :=
  String.intercalate " " ((pySplit (removeQuotesCommas s)).reverse)

/-- Claim side (C5): per-file retention as the claim words it — strip
headers, keep the desired columns present, drop the rows whose Batter is
absent.  Unlike `filterFile`, a file without a Batter column simply has
every row dropped. -/
def specRetainFile (f : RawFile) : FTable :=
  let hs := f.headers.map (fun h => h.trim)
  let kept := desired_columns.filter (fun c => hs.contains c)
  let rows := f.rows.map (fun r => kept.map (fun c => cellAt hs r c))
  ⟨kept, rows.filter (fun r => (cellAt kept r "Batter").isSome)⟩

/-- Claim side (C5): ingestion as the claim words it — retain per file,
skip empty or all-absent tables, concatenate in order, and fall back to
an empty table with the fixed six columns. -/
def specIngest (fs : List RawFile) : FTable :=
  let ts := (fs.map specRetainFile).filter keepTable
  if ts.isEmpty then ⟨desired_columns, []⟩ else concatTables ts

/-- Claim side (C6): the merged header row — Grade and decisionScore
immediately after `playerFirstName`, all other columns in their original
relative order. -/
def specMergeCols (hs : List String) : List String :=
  let i := hs.findIdx (fun h => h = "playerFirstName") + 1
  hs.take i ++ ["Grade", "decisionScore"] ++ hs.drop i

/-- Claim side (C6): one merged row — the trimmed `playerFullName` is
looked up by exact string equality; a hit attaches the stored grade and
score, a miss attaches missing markers; every original cell is kept
under its column. -/
def specMergeRow (hs : List String) (smap : List (String × String × ℚ))
    (r : List (Option Val)) : List (Option Val) :=
  let looked := lookupCells smap (trimCell (cellAt hs r "playerFullName"))
  let i := hs.findIdx (fun h => h = "playerFirstName") + 1
  (hs.take i).map (fun c => cellAt hs r c) ++ [looked.1, looked.2] ++
    (hs.drop i).map (fun c => cellAt hs r c)

/-- Claim side (C6): the merged table. -/
def specMergedTable (tm : RawFile) (smap : List (String × String × ℚ)) : FTable :=
  ⟨specMergeCols tm.headers, tm.rows.map (fun r => specMergeRow tm.headers smap r)⟩

/-- Claim side (C8, amended): a Trackman file that makes the run fail on
its own — unparseable, or parseable without a Batter column among its
whitespace-trimmed headers. -/
def trackmanFileFails : Option RawFile → Bool
  | none => true
  | some rf => !((rf.headers.map (fun h => h.trim)).contains "Batter")

/-- Claim side (C8, amended): the concatenated pitch table has rows but
lacks a column the scoring loop indexes directly. -/
def combinedLacksKeyCols (tfs : List (Option RawFile)) : Bool :=
  match load_and_filter_trackman tfs with
  | Except.error _ => false
  | Except.ok t =>
      (!t.rows.isEmpty) &&
        (!(t.cols.contains "Batter") || !(t.cols.contains "PitchCall"))

/-- Claim side (C8): the second dataset is unparseable or lacks a
required player-name column. -/
def trumediaBad : Option RawFile → Bool
  | none => true
  | some f =>
      !(f.headers.contains "playerFullName") || !(f.headers.contains "playerFirstName")

/-- Claim side (C8, amended): the full failure condition of the
pipeline. -/
def pipelineFailsSpec (tfs : List (Option RawFile)) (tm : Option RawFile) : Bool :=
  tfs.any trackmanFileFails || combinedLacksKeyCols tfs || trumediaBad tm

/-- Claim side (C9): a batter's score as a pure sum — each row with this
batter contributes exactly once. -/
def totalContrib (rows : List PitchRow) (b : String) : ℚ :=
  ((rows.filter (fun r => r.batter = some b)).map rowContrib).sum

/-- The raw name of the O-apostrophe-Brien example (spec section 8),
built without a literal apostrophe character. -/
def obrienRaw : String := String.mk ('O' :: Char.ofNat 39 :: "Brien, Pat".data)

/-- The expected normalization of `obrienRaw`. -/
def obrienNormalized : String := String.mk ("Pat O".data ++ Char.ofNat 39 :: "Brien".data)

/-- Decidable equality of fallible results, for evaluating the model at
concrete inputs. -/
instance exceptDecEq {ε α : Type} [DecidableEq ε] [DecidableEq α] :
    DecidableEq (Except ε α) := fun a b =>
  match a, b with
  | Except.ok x, Except.ok y =>
      if h : x = y then Decidable.isTrue (by rw [h])
      else Decidable.isFalse (by intro hc; cases hc; exact h rfl)
  | Except.error x, Except.error y =>
      if h : x = y then Decidable.isTrue (by rw [h])
      else Decidable.isFalse (by intro hc; cases hc; exact h rfl)
  | Except.ok _, Except.error _ => Decidable.isFalse (by intro hc; cases hc)
  | Except.error _, Except.ok _ => Decidable.isFalse (by intro hc; cases hc)

/-- A parseable pitch file with no Batter column: one PitchCall cell. -/
def noBatterFile : RawFile := ⟨["PitchCall"], [[some (Val.s "InPlay")]]⟩

/-- A small well-formed pitch file. -/
def smithFile : RawFile :=
  ⟨["Batter", "PitchCall"],
   [[some (Val.s "Smith, John"), some (Val.s "BallCalled")]]⟩

/-- A minimal player table with the two required columns. -/
def tmShort : RawFile :=
  ⟨["playerFirstName", "playerFullName"],
   [[some (Val.s "John"), some (Val.s "John Smith")]]⟩

/-! ## Theorems -/

/-- C1: per-row contribution of the PitchCall clauses follows the exact
precedence the spec states: BallCalled gives +0.25; else a called strike
with a strikeout gives -2; else a swinging strike gives -1.5 on a
strikeout, else -1 exactly when both plate locations are present and lie
outside the rectangle 1.5 ≤ height ≤ 3.6, -0.75 ≤ side ≤ 0.75, else 0;
any other PitchCall value contributes 0. -/
theorem pitch_rule_table_correct (r : PitchRow) : contribOfPitch r = specPitchContrib r := by
  rcases r with ⟨b, pc, kb, pr, h, sd⟩
  simp only [contribOfPitch, specPitchContrib]
  cases h with
  | none => cases sd <;> simp [outsideZone]
  | some hv =>
    cases sd with
    | none => simp [outsideZone]
    | some sv =>
      simp only [outsideZone]
      by_cases hp : (1.5 : ℚ) ≤ hv ∧ hv ≤ (3.6 : ℚ) ∧ (-0.75 : ℚ) ≤ sv ∧ sv ≤ (0.75 : ℚ)
      · simp [hp]
      · simp [hp]

/-- C2: the HomeRun bonus is independent and additive — a row whose
PlayResult is HomeRun contributes the PitchCall clause value plus 4, and
a BallCalled HomeRun row contributes exactly 4.25. -/
theorem homerun_bonus_additive (r : PitchRow) :
    (r.playResult = some "HomeRun" → rowContrib r = contribOfPitch r + 4) ∧
    (r.pitchCall = some "BallCalled" → r.playResult = some "HomeRun" →
      rowContrib r = 4.25) := by
  constructor
  · intro hhr
    simp [rowContrib, homeRunBonus, hhr]
  · intro hbc hhr
    simp only [rowContrib, homeRunBonus, contribOfPitch, hbc, hhr, if_pos]
    norm_num

/-- C2 witness: a concrete BallCalled HomeRun row. -/
theorem homerun_bonus_additive_witness :
    rowContrib ⟨some "b", some "BallCalled", none, some "HomeRun", none, none⟩ =
      contribOfPitch ⟨some "b", some "BallCalled", none, some "HomeRun", none, none⟩ + 4 ∧
    rowContrib ⟨some "b", some "BallCalled", none, some "HomeRun", none, none⟩ = 4.25 :=
  ⟨(homerun_bonus_additive _).1 (by decide),
   (homerun_bonus_additive _).2 (by decide) (by decide)⟩

set_option maxHeartbeats 1600000 in
/-- C3: the grade mapper is total on ℚ and partitions scores into the
half-open brackets with cut points -0.5, 0, 0.5, 1, 1.5, 2, 2.5, 3,
each boundary inclusive on the upper side; every score strictly below
-0.5 is a C-, the score -0.5 itself is a C, and 3.0 and everything
above is an A+. -/
theorem grade_brackets_correct :
    (∀ s : ℚ, get_grade s = specGrade s) ∧
    get_grade (-0.5) = "C" ∧ get_grade 3.0 = "A+" ∧
    (∀ s : ℚ, s < -0.5 → get_grade s = "C-") ∧
    (∀ s : ℚ, 3.0 ≤ s → get_grade s = "A+") := by
  refine ⟨?_, by with_unfolding_all decide, by with_unfolding_all decide, ?_, ?_⟩
  · intro s
    unfold get_grade specGrade
    split_ifs <;> first | rfl | linarith
  · intro s hs
    unfold get_grade
    rw [if_pos hs]
  · intro s hs
    unfold get_grade
    split_ifs <;> first | rfl | linarith

/-- C3 witness: the unbounded ends of the partition at concrete
scores. -/
theorem grade_brackets_correct_witness :
    get_grade (-7) = "C-" ∧ get_grade 41 = "A+" :=
  ⟨grade_brackets_correct.2.2.2.1 (-7) (by with_unfolding_all decide),
   grade_brackets_correct.2.2.2.2 41 (by with_unfolding_all decide)⟩

/-- C4: the name normalizer removes exactly the double-quote and comma
characters, splits on whitespace, reverses the tokens and rejoins with
single spaces; in particular it sends the Smith example to
John Smith and preserves the apostrophe of the O-Brien example. -/
theorem normalize_name_correct :
    (∀ s : String, normalizeName s = specNormalizeName s) ∧
    normalizeName "Smith, John" = "John Smith" ∧
    normalizeName obrienRaw = obrienNormalized := by
  refine ⟨?_, by decide, by decide⟩
  intro s
  unfold normalizeName specNormalizeName removeQuotesCommas
  have : s.data.filter (fun c => decide (c ≠ quoteChar ∧ c ≠ ',')) =
      s.data.filter (fun c => decide (¬ (c = quoteChar ∨ c = ','))) := by
    refine List.filter_congr ?_
    intro c _
    by_cases h1 : c = quoteChar <;> by_cases h2 : c = ',' <;> simp [h1, h2]
  rw [this]

/-! ### Dictionary lemmas for the scoring fold -/

/-- `addTo` changes only the entry of its key, adding `v` to it. -/
theorem dictFind_addTo (d : List (String × ℚ)) (b b' : String) (v : ℚ) :
    dictFind (addTo d b v) b' =
      if b' = b then (dictFind d b').map (fun x => x + v) else dictFind d b' := by
  induction d with
  | nil => by_cases hbb : b' = b <;> simp [dictFind, addTo, hbb]
  | cons p rest ih =>
    by_cases hpb : p.1 = b <;> by_cases hpb' : p.1 = b' <;>
      simp_all [dictFind, addTo, List.find?_cons_of_pos, List.find?_cons_of_neg,
        List.find?, hpb, hpb'] <;>
      simp_all [eq_comm]

/-- `ensureKey` gives the key a default-0 entry and touches nothing
else. -/
theorem dictFind_ensureKey (d : List (String × ℚ)) (b b' : String) :
    dictFind (ensureKey d b) b' =
      if b' = b then some ((dictFind d b).getD 0) else dictFind d b' := by
  unfold ensureKey
  by_cases hany : d.any (fun p => p.1 = b) = true
  · rw [if_pos hany]
    by_cases hbb : b' = b
    · subst hbb
      obtain ⟨x, hx, hpx⟩ := List.any_eq_true.mp hany
      have hsome : (d.find? (fun p => decide (p.1 = b'))).isSome := by
        rw [List.find?_isSome]
        exact ⟨x, hx, hpx⟩
      obtain ⟨q, hq⟩ := Option.isSome_iff_exists.mp hsome
      simp [dictFind, hq]
    · rw [if_neg hbb]
  · rw [if_neg hany]
    by_cases hbb : b' = b
    · subst hbb
      have hnone : d.find? (fun p => decide (p.1 = b')) = none := by
        rw [List.find?_eq_none]
        intro x hx hpx
        exact hany (List.any_eq_true.mpr ⟨x, hx, hpx⟩)
      simp [dictFind, List.find?_append, hnone]
    · by_cases hfd : (d.find? (fun p => decide (p.1 = b'))).isSome
      · obtain ⟨q, hq⟩ := Option.isSome_iff_exists.mp hfd
        simp [dictFind, List.find?_append, hq, hbb]
      · have hnone : d.find? (fun p => decide (p.1 = b')) = none :=
          Option.not_isSome_iff_eq_none.mp hfd
        simp [dictFind, List.find?_append, hnone, hbb, Ne.symm hbb]

/-- One scoring step seen through lookup: the row's batter gains its
row contribution (on a default of 0), everyone else is untouched, and a
missing batter changes nothing. -/
theorem dictFind_calcStep (d : List (String × ℚ)) (r : PitchRow) (b : String) :
    dictFind (calcStep d r) b =
      match r.batter with
      | some b0 =>
          if b = b0 then some ((dictFind d b).getD 0 + rowContrib r) else dictFind d b
      | none => dictFind d b := by
  cases hb : r.batter with
  | none => simp [calcStep, hb]
  | some b0 =>
    simp only [calcStep, hb]
    rw [dictFind_addTo]
    by_cases hbb : b = b0
    · subst hbb
      rw [if_pos rfl, dictFind_ensureKey, if_pos rfl]
      simp
    · rw [if_neg hbb, dictFind_ensureKey, if_neg hbb]
      simp [hbb]

/-- The scoring fold computes, for every batter, the sum of the
contributions of exactly the rows carrying that batter. -/
theorem calc_fold (rows : List PitchRow) :
    ∀ (d : List (String × ℚ)) (b : String),
      dictFind (rows.foldl calcStep d) b =
        match dictFind d b with
        | some v => some (v + totalContrib rows b)
        | none =>
            if rows.any (fun r => r.batter = some b) then some (totalContrib rows b)
            else none := by
  induction rows with
  | nil =>
    intro d b
    cases hd : dictFind d b <;> simp [totalContrib, hd]
  | cons r rest ih =>
    intro d b
    rw [List.foldl_cons, ih, dictFind_calcStep]
    cases hb : r.batter with
    | none =>
      have hne : (decide (r.batter = some b)) = false := by simp [hb]
      cases hd : dictFind d b <;>
        simp [totalContrib, List.filter_cons, List.any_cons, hne, hd, hb]
    | some b0 =>
      dsimp only
      by_cases hbb : b = b0
      · subst hbb
        have hyes : (decide (r.batter = some b)) = true := by simp [hb]
        rw [if_pos rfl]
        cases hd : dictFind d b <;>
          simp [totalContrib, List.filter_cons, List.any_cons, hyes, hd, add_assoc]
      · have hne : (decide (r.batter = some b)) = false := by
          rw [hb]
          simp only [Option.some.injEq, decide_eq_false_iff_not]
          exact fun h => hbb h.symm
        rw [if_neg hbb]
        cases hd : dictFind d b <;>
          simp [totalContrib, List.filter_cons, List.any_cons, hne, hd]

/-- Boolean `any` is invariant under permutation. -/
theorem any_perm_invariant {α : Type} (p : α → Bool) {l₁ l₂ : List α}
    (h : l₁.Perm l₂) : l₁.any p = l₂.any p := by
  rw [Bool.eq_iff_iff, List.any_eq_true, List.any_eq_true]
  constructor
  · rintro ⟨x, hx, hpx⟩
    exact ⟨x, h.mem_iff.mp hx, hpx⟩
  · rintro ⟨x, hx, hpx⟩
    exact ⟨x, h.mem_iff.mpr hx, hpx⟩

/-- C9: the scoring engine is a pure sum — for every batter the computed
score is the sum of the contributions of exactly the rows naming that
batter (each such row counted once, none skipped), and permuting the
rows leaves the whole batter-to-score mapping unchanged. -/
theorem scores_pure_sum_and_order_invariant :
    (∀ (rows : List PitchRow) (b : String),
      dictFind (calculate_batter_scores rows) b =
        if rows.any (fun r => r.batter = some b) then some (totalContrib rows b)
        else none) ∧
    (∀ (rows rows' : List PitchRow), rows.Perm rows' → ∀ b : String,
      dictFind (calculate_batter_scores rows) b =
        dictFind (calculate_batter_scores rows') b) := by
  have hchar : ∀ (rows : List PitchRow) (b : String),
      dictFind (calculate_batter_scores rows) b =
        if rows.any (fun r => r.batter = some b) then some (totalContrib rows b)
        else none := by
    intro rows b
    have h := calc_fold rows [] b
    simpa [calculate_batter_scores, dictFind] using h
  refine ⟨hchar, ?_⟩
  intro rows rows' hperm b
  rw [hchar, hchar]
  have htot : totalContrib rows b = totalContrib rows' b :=
    List.Perm.sum_eq ((hperm.filter _).map _)
  rw [any_perm_invariant _ hperm, htot]

/-- C9 witness: a two-row table and its swap give the same lookup. -/
theorem scores_pure_sum_and_order_invariant_witness :
    dictFind (calculate_batter_scores
      [⟨some "x", some "BallCalled", none, none, none, none⟩,
       ⟨some "y", some "FoulBall", none, none, none, none⟩]) "x" =
    dictFind (calculate_batter_scores
      [⟨some "y", some "FoulBall", none, none, none, none⟩,
       ⟨some "x", some "BallCalled", none, none, none, none⟩]) "x" :=
  scores_pure_sum_and_order_invariant.2 _ _ (by decide) "x"

/-! ### Lemmas for the score_map dictionary comprehension -/

/-- In-place replacement keeps the key of every entry. -/
theorem replace_preserves_key (k : String) (v : String × ℚ) (p : String × String × ℚ) :
    ((if p.1 = k then (k, v) else p).1 = p.1) := by
  split
  next h => exact h.symm
  next => rfl

/-- Lookup after a dict insertion: the inserted key maps to the new
value, every other key is untouched. -/
theorem mapFind_upsert (m : List (String × String × ℚ)) (k : String) (v : String × ℚ)
    (k' : String) :
    mapFind (upsert m k v) k' = if k' = k then some v else mapFind m k' := by
  unfold upsert
  by_cases hany : m.any (fun p => p.1 = k) = true
  · rw [if_pos hany]
    unfold mapFind
    rw [List.find?_map]
    have hpred : ((fun p : String × String × ℚ => decide (p.1 = k')) ∘
        (fun p => if p.1 = k then (k, v) else p)) =
        (fun p : String × String × ℚ => decide (p.1 = k')) := by
      funext p
      simp only [Function.comp]
      rw [replace_preserves_key]
    rw [hpred]
    by_cases hkk : k' = k
    · subst hkk
      obtain ⟨x, hx, hpx⟩ := List.any_eq_true.mp hany
      have hs : (m.find? (fun p => decide (p.1 = k'))).isSome :=
        List.find?_isSome.mpr ⟨x, hx, hpx⟩
      obtain ⟨q, hq⟩ := Option.isSome_iff_exists.mp hs
      have hq1 : q.1 = k' := by simpa using List.find?_some hq
      rw [hq]
      simp [hq1]
    · rw [if_neg hkk]
      cases hq : m.find? (fun p => decide (p.1 = k')) with
      | none => simp
      | some q =>
        have hq1 : q.1 = k' := by simpa using List.find?_some hq
        have hqk : ¬ q.1 = k := by rw [hq1]; exact hkk
        simp [hqk]
  · rw [if_neg hany]
    unfold mapFind
    rw [List.find?_append]
    by_cases hkk : k' = k
    · subst hkk
      have hnone : m.find? (fun p => decide (p.1 = k')) = none := by
        rw [List.find?_eq_none]
        intro x hx hpx
        exact hany (List.any_eq_true.mpr ⟨x, hx, hpx⟩)
      rw [hnone]
      simp [List.find?_cons_of_pos]
    · cases hq : m.find? (fun p => decide (p.1 = k')) with
      | none =>
        have hne : ¬ ((k, v).1 = k') := fun h => hkk h.symm
        rw [List.find?_cons_of_neg _ (by simpa using hne)]
        simp [hkk]
      | some q => simp [hkk]

/-- The dict comprehension seen through lookup: the last score row with
a given normalized name wins. -/
theorem score_map_find_general (rows : List ScoreRow) :
    ∀ (m : List (String × String × ℚ)) (k : String),
      mapFind (rows.foldl
          (fun m sr => upsert m sr.normalizedName (sr.grade, sr.decisionScore)) m) k =
        match rows.reverse.find? (fun sr => sr.normalizedName = k) with
        | some sr => some (sr.grade, sr.decisionScore)
        | none => mapFind m k := by
  induction rows with
  | nil => intro m k; simp
  | cons sr rest ih =>
    intro m k
    rw [List.foldl_cons, ih, List.reverse_cons, List.find?_append]
    cases hr : rest.reverse.find? (fun s => decide (s.normalizedName = k)) with
    | some s' => simp
    | none =>
      simp only [Option.none_or]
      by_cases hk : sr.normalizedName = k
      · rw [List.find?_cons_of_pos _ (by simp [hk])]
        rw [mapFind_upsert, if_pos hk.symm]
      · rw [List.find?_cons_of_neg _ (by simp [hk])]
        rw [mapFind_upsert, if_neg (fun h => hk h.symm)]
        simp

/-- Dict insertion keeps the keys duplicate-free. -/
theorem upsert_keys_nodup (m : List (String × String × ℚ)) (k : String) (v : String × ℚ)
    (h : (m.map Prod.fst).Nodup) : ((upsert m k v).map Prod.fst).Nodup := by
  unfold upsert
  by_cases hany : m.any (fun p => p.1 = k) = true
  · rw [if_pos hany]
    have heq : (m.map (fun p => if p.1 = k then (k, v) else p)).map Prod.fst =
        m.map Prod.fst := by
      rw [List.map_map]
      exact List.map_congr_left (fun p _ => replace_preserves_key k v p)
    rw [heq]
    exact h
  · rw [if_neg hany]
    rw [List.map_append, List.nodup_append]
    refine ⟨h, by simp, ?_⟩
    intro a ha hk'
    simp only [List.map_cons, List.map_nil, List.mem_singleton] at hk'
    subst hk'
    obtain ⟨p, hp, hpk⟩ := List.mem_map.mp ha
    exact hany (List.any_eq_true.mpr ⟨p, hp, by simp [hpk]⟩)

/-- The keys of the dict built by the comprehension are
duplicate-free. -/
theorem score_map_fold_keys_nodup (rows : List ScoreRow) :
    ∀ m : List (String × String × ℚ), (m.map Prod.fst).Nodup →
      ((rows.foldl
          (fun m sr => upsert m sr.normalizedName (sr.grade, sr.decisionScore)) m).map
        Prod.fst).Nodup := by
  induction rows with
  | nil => intro m h; exact h
  | cons sr rest ih =>
    intro m h
    rw [List.foldl_cons]
    exact ih _ (upsert_keys_nodup _ _ _ h)

/-- With duplicate-free keys, a key that looks up successfully occurs in
exactly one entry. -/
theorem countP_key_of_nodup (m : List (String × String × ℚ)) (k : String)
    (hnd : (m.map Prod.fst).Nodup) (hsome : (mapFind m k).isSome = true) :
    m.countP (fun e => e.1 = k) = 1 := by
  induction m with
  | nil => simp [mapFind] at hsome
  | cons p rest ih =>
    rw [List.countP_cons]
    simp only [List.map_cons, List.nodup_cons] at hnd
    by_cases hp : p.1 = k
    · have hknotin : k ∉ rest.map Prod.fst := by rw [← hp]; exact hnd.1
      have hzero : rest.countP (fun e => decide (e.1 = k)) = 0 := by
        rw [List.countP_eq_zero]
        intro a ha
        simp only [decide_eq_true_eq]
        intro hak
        exact hknotin (by rw [← hak]; exact List.mem_map_of_mem Prod.fst ha)
      simp [hzero, hp]
    · have hsome' : (mapFind rest k).isSome = true := by
        unfold mapFind at hsome ⊢
        rwa [List.find?_cons_of_neg _ (by simp [hp])] at hsome
      simp [hp, ih hnd.2 hsome']

/-- C10: when two distinct raw batter names normalize to the same key,
the score lookup map keeps exactly one entry for that key, carrying the
grade and score of the batter that comes later in the score table's
order; the earlier batter's data is unreachable by lookup. -/
theorem duplicate_normalized_key_last_wins
    (scores : List (String × ℚ)) (p1 p2 : String × ℚ)
    (pre mid post : List (String × ℚ))
    (hsplit : scores = pre ++ p1 :: mid ++ p2 :: post)
    (hdistinct : p1.1 ≠ p2.1)
    (hsame : normalizeName p1.1 = normalizeName p2.1)
    (hlast : ∀ q ∈ post, normalizeName q.1 ≠ normalizeName p2.1) :
    mapFind (score_map (score_df scores)) (normalizeName p2.1) =
      some (get_grade p2.2, p2.2) ∧
    (score_map (score_df scores)).countP
      (fun e => e.1 = normalizeName p2.1) = 1 := by
  have hmain : mapFind (score_map (score_df scores)) (normalizeName p2.1) =
      some (get_grade p2.2, p2.2) := by
    subst hsplit
    unfold score_map score_df
    rw [score_map_find_general]
    have hrev : ((pre ++ p1 :: mid ++ p2 :: post).map mkScoreRow).reverse =
        (post.map mkScoreRow).reverse ++ mkScoreRow p2 ::
          (((mid.map mkScoreRow).reverse ++ mkScoreRow p1 :: (pre.map mkScoreRow).reverse)) := by
      simp
    rw [hrev, List.find?_append]
    have hpost : (post.map mkScoreRow).reverse.find?
        (fun sr => decide (sr.normalizedName = normalizeName p2.1)) = none := by
      rw [List.find?_eq_none]
      intro sr hsr
      rw [List.mem_reverse] at hsr
      obtain ⟨q, hq, hqe⟩ := List.mem_map.mp hsr
      subst hqe
      simp only [mkScoreRow, decide_eq_true_eq]
      exact hlast q hq
    rw [hpost]
    simp only [Option.none_or]
    rw [List.find?_cons_of_pos _ (by simp [mkScoreRow])]
    rfl
  refine ⟨hmain, countP_key_of_nodup _ _ ?_ (by rw [hmain]; rfl)⟩
  have h0 : ((([] : List (String × String × ℚ))).map Prod.fst).Nodup := by simp
  exact score_map_fold_keys_nodup (score_df scores) [] h0

/-- C10 witness: two distinct raw names with the same normalization; the
later one's grade and score are the ones the map returns. -/
theorem duplicate_normalized_key_last_wins_witness :
    mapFind (score_map (score_df [("Smith, John", 0), ("Smith John", 1)]))
        (normalizeName "Smith John") =
      some (get_grade 1, 1) ∧
    (score_map (score_df [("Smith, John", 0), ("Smith John", 1)])).countP
      (fun e => e.1 = normalizeName "Smith John") = 1 :=
  duplicate_normalized_key_last_wins [("Smith, John", 0), ("Smith John", 1)]
    ("Smith, John", 0) ("Smith John", 1) [] [] [] rfl (by decide) (by decide)
    (by decide)

/-! ### Ingestion lemmas -/

/-- On a file whose trimmed headers include Batter, the per-file filter
succeeds and agrees with the claim-side retention. -/
theorem filterFile_ok (f : RawFile)
    (hB : "Batter" ∈ f.headers.map (fun h => h.trim)) :
    filterFile f = Except.ok (specRetainFile f) := by
  have hc : (desired_columns.filter
      (fun c => (f.headers.map (fun h => h.trim)).contains c)).contains "Batter" = true := by
    have hm : "Batter" ∈ desired_columns.filter
        (fun c => (f.headers.map (fun h => h.trim)).contains c) := by
      rw [List.mem_filter]
      exact ⟨by simp [desired_columns], by simpa using hB⟩
    simpa using hm
  simp only [filterFile, specRetainFile]
  rw [if_pos hc]

/-- The file loop succeeds on parseable Batter-bearing files and keeps
exactly the claim-side tables, in order. -/
theorem loadAux_ok (fs : List RawFile)
    (hB : ∀ f ∈ fs, "Batter" ∈ f.headers.map (fun h => h.trim)) :
    loadAux (fs.map some) = Except.ok ((fs.map specRetainFile).filter keepTable) := by
  induction fs with
  | nil => rfl
  | cons f rest ih =>
    have h1 : filterFile f = Except.ok (specRetainFile f) := filterFile_ok f (hB f (by simp))
    have h2 : loadAux (rest.map some) =
        Except.ok ((rest.map specRetainFile).filter keepTable) :=
      ih (fun g hg => hB g (by simp [hg]))
    simp only [List.map_cons, loadAux, h1, h2, List.filter_cons]

/-- C5 (amended): for parseable input files that each carry a Batter
column after header trimming, ingestion returns exactly the claim-side
result — per-file retention, empty/all-absent skip, order-preserving
concatenation, and the fixed six-column empty table when nothing is
retained. -/
theorem ingestion_matches_spec_given_batter (fs : List RawFile)
    (hB : ∀ f ∈ fs, "Batter" ∈ f.headers.map (fun h => h.trim)) :
    load_and_filter_trackman (fs.map some) = Except.ok (specIngest fs) := by
  unfold load_and_filter_trackman specIngest
  rw [loadAux_ok fs hB]
  by_cases he : ((fs.map specRetainFile).filter keepTable).isEmpty = true <;> simp [he]

/-- C5 witness: one ordinary file. -/
theorem ingestion_matches_spec_witness :
    load_and_filter_trackman [some smithFile] = Except.ok (specIngest [smithFile]) :=
  ingestion_matches_spec_given_batter [smithFile] (by with_unfolding_all decide)

/-- C5 counterexample: a parseable file without a Batter column makes
`load_and_filter_trackman` raise (pandas `dropna(subset=["Batter"])`
raises `KeyError`), while the claim predicts the empty six-column table;
so the claim as stated — every sequence of parseable files yields the
concatenation — is false. -/
theorem ingestion_counterexample :
    load_and_filter_trackman [some noBatterFile] = Except.error "KeyError: Batter" ∧
    specIngest [noBatterFile] = FTable.mk desired_columns [] ∧
    load_and_filter_trackman [some noBatterFile] ≠
      Except.ok (specIngest [noBatterFile]) := by
  refine ⟨?_, ?_, ?_⟩ <;> with_unfolding_all decide

/-! ### Merge lemmas -/

/-- Disjunction elimination for `Option.or` on a present value. -/
theorem option_some_or {α : Type} (a : α) (o : Option α) : (some a).or o = some a := rfl

/-- A member is found by `findIdx?`, at an index inside the list. -/
theorem findIdx?_eqc_of_mem (hs : List String) (c : String) (h : c ∈ hs) :
    ∃ i, hs.findIdx? (fun x => x = c) = some i ∧ i < hs.length := by
  induction hs with
  | nil => cases h
  | cons a rest ih =>
    by_cases hac : a = c
    · exact ⟨0, by simp [List.findIdx?_cons, hac], by simp⟩
    · have hmem : c ∈ rest := by
        cases List.mem_cons.mp h with
        | inl hca => exact absurd hca.symm hac
        | inr hm => exact hm
      obtain ⟨i, hi, hlt⟩ := ih hmem
      exact ⟨i + 1, by simp [List.findIdx?_cons, hac, hi],
        by simpa using Nat.succ_lt_succ hlt⟩

/-- A non-member is not found by `findIdx?`. -/
theorem findIdx?_eqc_none (hs : List String) (c : String) (h : c ∉ hs) :
    hs.findIdx? (fun x => x = c) = none := by
  induction hs with
  | nil => rfl
  | cons a rest ih =>
    have h1 : ¬ a = c := fun hc => h (by rw [← hc]; exact List.mem_cons_self a rest)
    have h2 : c ∉ rest := fun hm => h (List.mem_cons_of_mem a hm)
    simp [List.findIdx?_cons, h1, ih h2]

/-- Reading a column of the original table through the extended layout
gives the original cell (rows aligned with the headers). -/
theorem cellAt_of_left (hs ext : List String) (r rext : List (Option Val)) (c : String)
    (hc : c ∈ hs) (hlen : r.length = hs.length) :
    cellAt (hs ++ ext) (r ++ rext) c = cellAt hs r c := by
  obtain ⟨i, hi, hlt⟩ := findIdx?_eqc_of_mem hs c hc
  unfold cellAt
  rw [List.findIdx?_append, hi, option_some_or]
  exact List.getD_append r rext none i (hlen.symm ▸ hlt)

/-- Reading an appended column goes to the appended cells. -/
theorem cellAt_of_right (hs ext : List String) (r rext : List (Option Val)) (c : String)
    (hc : c ∉ hs) (hlen : r.length = hs.length) :
    cellAt (hs ++ ext) (r ++ rext) c = cellAt ext rext c := by
  unfold cellAt
  rw [List.findIdx?_append, findIdx?_eqc_none hs c hc, Option.none_or]
  cases hj : ext.findIdx? (fun x => x = c) with
  | none => rfl
  | some j =>
    simp only [Option.map_some']
    rw [List.getD_append_right r rext none (j + hs.length)
      (by rw [hlen]; exact Nat.le_add_left _ _)]
    congr 1
    rw [hlen, Nat.add_sub_cancel]

/-- A member's `findIdx` is inside the list. -/
theorem findIdx_lt_length_of_mem (hs : List String) (c : String) (h : c ∈ hs) :
    hs.findIdx (fun x => x = c) < hs.length := by
  induction hs with
  | nil => cases h
  | cons a rest ih =>
    by_cases hac : a = c
    · simp [List.findIdx_cons, hac]
    · have hmem : c ∈ rest := by
        cases List.mem_cons.mp h with
        | inl hca => exact absurd hca.symm hac
        | inr hm => exact hm
      rw [List.findIdx_cons]
      have hd : (decide (a = c)) = false := by simp [hac]
      rw [hd]
      simp only [cond_false, List.length_cons]
      exact Nat.succ_lt_succ (ih hmem)

/-- `findIdx` of a column of the original table ignores appended
columns. -/
theorem findIdx_append_of_mem (hs ext : List String) (c : String) (h : c ∈ hs) :
    (hs ++ ext).findIdx (fun x => x = c) = hs.findIdx (fun x => x = c) := by
  rw [List.findIdx_append]
  exact if_pos (findIdx_lt_length_of_mem hs c h)

/-- Assigning a fresh column appends it on the right. -/
theorem setCol_fresh (t : FTable) (c : String) (vals : List (Option Val))
    (hc : c ∉ t.cols) :
    setCol t c vals = ⟨t.cols ++ [c], (t.rows.zip vals).map (fun p => p.1 ++ [p.2])⟩ := by
  unfold setCol
  rw [findIdx?_eqc_none t.cols c hc]

/-- Columns after an assignment: the old ones plus possibly the new
name. -/
theorem mem_setCol_cols (t : FTable) (c x : String) (vals : List (Option Val)) :
    x ∈ (setCol t c vals).cols ↔ x ∈ t.cols ∨ x = c := by
  unfold setCol
  cases hf : t.cols.findIdx? (fun h => h = c) with
  | none => simp
  | some i =>
    have hcmem : c ∈ t.cols := by
      by_contra hcm
      rw [findIdx?_eqc_none t.cols c hcm] at hf
      cases hf
    simp only
    exact ⟨fun hx => Or.inl hx, fun hx => hx.elim id (fun he => he ▸ hcmem)⟩

/-- Zipping a list with a map of itself pairs each element with its
image. -/
theorem zip_self_map {α β : Type} (rows : List α) (f : α → β) :
    rows.zip (rows.map f) = rows.map (fun a => (a, f a)) := by
  have h := List.zip_map' (id : α → α) f rows
  rw [List.map_id] at h
  simpa using h

/-- The three column assignments on a table with fresh column names:
the headers gain the three names on the right and every row gains the
attached cells. -/
theorem mergeT3_explicit (tm : RawFile) (smap : List (String × String × ℚ))
    (hG : "Grade" ∉ tm.headers) (hD : "decisionScore" ∉ tm.headers)
    (hN : "NormalizedName" ∉ tm.headers) :
    mergeT3 tm smap =
      ⟨tm.headers ++ ["NormalizedName", "Grade", "decisionScore"],
       tm.rows.map (fun r => r ++ attachedCells tm.headers smap r)⟩ := by
  have hG1 : "Grade" ∉ tm.headers ++ ["NormalizedName"] := by
    simp only [List.mem_append, List.mem_singleton]
    rintro (h | h)
    · exact hG h
    · exact absurd h (by decide)
  have hD1 : "decisionScore" ∉ (tm.headers ++ ["NormalizedName"]) ++ ["Grade"] := by
    simp only [List.mem_append, List.mem_singleton]
    rintro ((h | h) | h)
    · exact hD h
    · exact absurd h (by decide)
    · exact absurd h (by decide)
  simp only [mergeT3]
  rw [setCol_fresh ⟨tm.headers, tm.rows⟩ "NormalizedName" _ hN]
  rw [setCol_fresh _ "Grade" _ hG1]
  rw [setCol_fresh _ "decisionScore" _ hD1]
  simp [zip_self_map, List.zip_map', List.map_map, Function.comp,
    List.append_assoc, attachedCells]

/-- One merged row equals the claim-side row: original cells in place,
the looked-up Grade and decisionScore after `playerFirstName`. -/
theorem merged_row_eq (hs : List String) (smap : List (String × String × ℚ))
    (r : List (Option Val)) (hr : r.length = hs.length)
    (hG : "Grade" ∉ hs) (hD : "decisionScore" ∉ hs) :
    (hs.take (hs.findIdx (fun h => h = "playerFirstName") + 1) ++
        ["Grade", "decisionScore"] ++
        hs.drop (hs.findIdx (fun h => h = "playerFirstName") + 1)).map
      (fun c => cellAt (hs ++ ["NormalizedName", "Grade", "decisionScore"])
        (r ++ attachedCells hs smap r) c) =
    specMergeRow hs smap r := by
  have e2 : (["Grade", "decisionScore"] : List String).map
      (fun c => cellAt (hs ++ ["NormalizedName", "Grade", "decisionScore"])
        (r ++ attachedCells hs smap r) c) =
      [(lookupCells smap (trimCell (cellAt hs r "playerFullName"))).1,
       (lookupCells smap (trimCell (cellAt hs r "playerFullName"))).2] := by
    rw [List.map_cons, List.map_cons, List.map_nil]
    rw [cellAt_of_right hs _ r _ "Grade" hG hr,
      cellAt_of_right hs _ r _ "decisionScore" hD hr]
    rfl
  have e1 : ∀ sub : List String, (∀ c ∈ sub, c ∈ hs) →
      sub.map (fun c => cellAt (hs ++ ["NormalizedName", "Grade", "decisionScore"])
        (r ++ attachedCells hs smap r) c) = sub.map (fun c => cellAt hs r c) :=
    fun sub hsub =>
      List.map_congr_left (fun c hc => cellAt_of_left hs _ r _ c (hsub c hc) hr)
  simp only [specMergeRow, List.map_append]
  rw [e1 _ (fun c hc => List.take_subset _ _ hc), e2,
    e1 _ (fun c hc => List.drop_subset _ _ hc)]

/-- C6: on a player table carrying `playerFirstName` and
`playerFullName` (and not already carrying the generated columns), the
merge succeeds and produces exactly the claim-side table: each row's
trimmed `playerFullName` is looked up by exact equality, a hit attaches
the stored grade and score and a miss attaches missing markers, and the
two new columns sit immediately after `playerFirstName` with all other
columns in their original relative order. -/
theorem merge_lookup_and_column_placement (tm : RawFile)
    (smap : List (String × String × ℚ))
    (hlen : ∀ r ∈ tm.rows, r.length = tm.headers.length)
    (hFirst : "playerFirstName" ∈ tm.headers) (hFull : "playerFullName" ∈ tm.headers)
    (hG : "Grade" ∉ tm.headers) (hD : "decisionScore" ∉ tm.headers)
    (hN : "NormalizedName" ∉ tm.headers) :
    mergeStep tm smap = Except.ok (specMergedTable tm smap) := by
  have ht3 := mergeT3_explicit tm smap hG hD hN
  unfold mergeStep
  rw [if_pos (show tm.headers.contains "playerFullName" = true by simpa using hFull)]
  rw [ht3]
  rw [if_pos (show (FTable.mk
      (tm.headers ++ ["NormalizedName", "Grade", "decisionScore"])
      (tm.rows.map (fun r => r ++ attachedCells tm.headers smap r))).cols.contains
        "playerFirstName" = true by simp [hFirst])]
  congr 1
  have herase : (((tm.headers ++ ["NormalizedName", "Grade", "decisionScore"]).erase
      "Grade").erase "decisionScore").erase "NormalizedName" = tm.headers := by
    rw [List.erase_append_right _ hG,
      show (["NormalizedName", "Grade", "decisionScore"] : List String).erase "Grade" =
        ["NormalizedName", "decisionScore"] from rfl,
      List.erase_append_right _ hD,
      show (["NormalizedName", "decisionScore"] : List String).erase "decisionScore" =
        ["NormalizedName"] from rfl,
      List.erase_append_right _ hN,
      show (["NormalizedName"] : List String).erase "NormalizedName" =
        ([] : List String) from rfl,
      List.append_nil]
  have hidx : (tm.headers ++ ["NormalizedName", "Grade", "decisionScore"]).findIdx
      (fun h => h = "playerFirstName") =
      tm.headers.findIdx (fun h => h = "playerFirstName") :=
    findIdx_append_of_mem _ _ _ hFirst
  simp only [reindexAfterFirstName, specMergedTable, specMergeCols, herase, hidx,
    List.map_map]
  rw [FTable.mk.injEq]
  refine ⟨rfl, ?_⟩
  refine List.map_congr_left (fun r hrr => ?_)
  simp only [Function.comp]
  exact merged_row_eq tm.headers smap r (hlen r hrr) hG hD

/-- C6 witness: a two-column player table against the empty mapping. -/
theorem merge_lookup_and_column_placement_witness :
    mergeStep tmShort [] = Except.ok (specMergedTable tmShort []) :=
  merge_lookup_and_column_placement tmShort [] (by decide) (by decide) (by decide)
    (by decide) (by decide) (by decide)

/-! ### Error-taxonomy lemmas -/

/-- `isOk` on a success. -/
theorem isOk_ok {ε α : Type} (a : α) : (Except.ok a : Except ε α).isOk = true := rfl

/-- `isOk` on a failure. -/
theorem isOk_error {ε α : Type} (e : ε) : (Except.error e : Except ε α).isOk = false := rfl

/-- Boolean membership test against propositional membership. -/
theorem contains_iff_mem {α : Type} [DecidableEq α] (l : List α) (a : α) :
    l.contains a = true ↔ a ∈ l := by simp

/-- Failing membership test against propositional non-membership. -/
theorem contains_false_iff {α : Type} [DecidableEq α] (l : List α) (a : α) :
    l.contains a = false ↔ a ∉ l := by
  constructor
  · intro h hm
    have := (contains_iff_mem l a).mpr hm
    rw [h] at this
    cases this
  · intro h
    cases hc : l.contains a
    · rfl
    · exact absurd ((contains_iff_mem l a).mp hc) h

/-- The per-file filter raises exactly on a file without a Batter column
among its trimmed headers. -/
theorem filterFile_error (rf : RawFile)
    (hb : ((rf.headers.map (fun h => h.trim)).contains "Batter") = false) :
    filterFile rf = Except.error "KeyError: Batter" := by
  have hnm : "Batter" ∉ desired_columns.filter
      (fun c => (rf.headers.map (fun h => h.trim)).contains c) := by
    intro hmem
    have := (List.mem_filter.mp hmem).2
    rw [hb] at this
    cases this
  have hcf : (desired_columns.filter
      (fun c => (rf.headers.map (fun h => h.trim)).contains c)).contains "Batter" = false :=
    (contains_false_iff _ _).mpr hnm
  unfold filterFile
  rw [if_neg (fun hcc => by rw [hcc] at hcf; cases hcf)]

/-- The file loop fails exactly when some file is unparseable or lacks a
Batter column. -/
theorem loadAux_fails_iff (tfs : List (Option RawFile)) :
    (loadAux tfs).isOk = false ↔ tfs.any trackmanFileFails = true := by
  induction tfs with
  | nil => simp [loadAux, isOk_ok]
  | cons f rest ih =>
    cases f with
    | none => simp [loadAux, trackmanFileFails, isOk_error]
    | some rf =>
      simp only [loadAux, List.any_cons]
      cases hb : ((rf.headers.map (fun h => h.trim)).contains "Batter") with
      | false =>
        rw [filterFile_error rf hb]
        have hff : trackmanFileFails (some rf) = true := by
          simp only [trackmanFileFails, hb, Bool.not_false]
        simp [isOk_error, hff]
      | true =>
        rw [filterFile_ok rf ((contains_iff_mem _ _).mp hb)]
        have hff : trackmanFileFails (some rf) = false := by
          simp only [trackmanFileFails, hb, Bool.not_true]
        rw [hff]
        cases hrest : loadAux rest with
        | error e =>
          have hany : (rest.any trackmanFileFails) = true := by
            rw [← ih, hrest]
            rfl
          simp [isOk_error, hany]
        | ok ts =>
          have hany : (rest.any trackmanFileFails) = false := by
            cases hx : rest.any trackmanFileFails
            · rfl
            · have := ih.mpr hx
              rw [hrest] at this
              cases this
          simp [isOk_ok, hany]

/-- Ingestion fails exactly when some file is unparseable or lacks a
Batter column. -/
theorem load_fails_iff (tfs : List (Option RawFile)) :
    (load_and_filter_trackman tfs).isOk = false ↔ tfs.any trackmanFileFails = true := by
  unfold load_and_filter_trackman
  cases h : loadAux tfs with
  | error e =>
    have := (loadAux_fails_iff tfs).mp (by rw [h]; rfl)
    simp [isOk_error, this]
  | ok ts =>
    have hany : tfs.any trackmanFileFails = false := by
      cases hx : tfs.any trackmanFileFails
      · rfl
      · have := (loadAux_fails_iff tfs).mpr hx
        rw [h] at this
        cases this
    by_cases he : ts.isEmpty = true <;> simp [he, isOk_ok, hany]

/-- The scoring loop over a dataframe never fails once both directly
indexed columns are present. -/
theorem calcRowsAux_ok (cols : List String)
    (hB : cols.contains "Batter" = true) (hP : cols.contains "PitchCall" = true) :
    ∀ (rows : List (List (Option Val))) (d : List (String × ℚ)),
      (calcRowsAux cols rows d).isOk = true := by
  intro rows
  induction rows with
  | nil => intro d; rfl
  | cons r rest ih =>
    intro d
    simp only [calcRowsAux, hB, hP, Bool.not_true, Bool.false_eq_true, if_false]
    exact ih _

/-- The scoring loop fails exactly when rows exist and a directly
indexed column is absent. -/
theorem calcScoresTable_fails_iff (t : FTable) :
    (calcScoresTable t).isOk = false ↔
      ((!t.rows.isEmpty) &&
        (!(t.cols.contains "Batter") || !(t.cols.contains "PitchCall"))) = true := by
  unfold calcScoresTable
  cases ht : t.rows with
  | nil => simp [calcRowsAux, isOk_ok]
  | cons r rest =>
    cases hB : t.cols.contains "Batter" with
    | false =>
      have hB' : "Batter" ∉ t.cols := (contains_false_iff _ _).mp hB
      simp [calcRowsAux, hB, hB', isOk_error]
    | true =>
      have hBm : "Batter" ∈ t.cols := (contains_iff_mem _ _).mp hB
      cases hP : t.cols.contains "PitchCall" with
      | false =>
        have hP' : "PitchCall" ∉ t.cols := (contains_false_iff _ _).mp hP
        simp [calcRowsAux, hB, hBm, hP, hP', isOk_error]
      | true =>
        have h := calcRowsAux_ok t.cols hB hP (r :: rest) []
        simp [h, hB, hP]

/-- The merge step fails exactly when a required player-name column is
absent from the second dataset's headers. -/
theorem mergeStep_fails_iff (tm : RawFile) (smap : List (String × String × ℚ)) :
    (mergeStep tm smap).isOk = false ↔
      ((!(tm.headers.contains "playerFullName")) ||
        (!(tm.headers.contains "playerFirstName"))) = true := by
  unfold mergeStep
  by_cases h1 : tm.headers.contains "playerFullName" = true
  · rw [if_pos h1]
    by_cases h2 : tm.headers.contains "playerFirstName" = true
    · have hmem : "playerFirstName" ∈ (mergeT3 tm smap).cols := by
        simp only [mergeT3, mem_setCol_cols]
        exact Or.inl (Or.inl (Or.inl ((contains_iff_mem _ _).mp h2)))
      rw [if_pos ((contains_iff_mem _ _).mpr hmem)]
      simp [isOk_ok, h1, h2]
      exact ⟨(contains_iff_mem _ _).mp h1, (contains_iff_mem _ _).mp h2⟩
    · have h2' : tm.headers.contains "playerFirstName" = false := by
        cases hc : tm.headers.contains "playerFirstName"
        · rfl
        · exact absurd hc h2
      have hn : "playerFirstName" ∉ tm.headers := (contains_false_iff _ _).mp h2'
      have hnm : "playerFirstName" ∉ (mergeT3 tm smap).cols := by
        simp only [mergeT3, mem_setCol_cols]
        rintro (((h | h) | h) | h)
        · exact hn h
        · exact absurd h (by decide)
        · exact absurd h (by decide)
        · exact absurd h (by decide)
      have hc : (mergeT3 tm smap).cols.contains "playerFirstName" = false :=
        (contains_false_iff _ _).mpr hnm
      rw [if_neg (fun hcc => by rw [hcc] at hc; cases hc)]
      simp [isOk_error, h1, h2']
      exact Or.inr hn
  · have h1' : tm.headers.contains "playerFullName" = false := by
      cases hc : tm.headers.contains "playerFullName"
      · rfl
      · exact absurd hc h1
    rw [if_neg h1]
    simp [isOk_error, h1']
    exact Or.inl ((contains_false_iff _ _).mp h1')

/-- C8 (amended): the pipeline fails if and only if an input file is
unparseable, or a pitch file lacks a Batter column after header
trimming, or the concatenated pitch table has rows but lacks the Batter
or PitchCall column the scoring loop indexes directly, or the second
dataset lacks playerFullName or playerFirstName; in particular an empty
ingestion result and an unmatched join key are not errors. -/
theorem pipeline_failure_taxonomy (tfs : List (Option RawFile)) (tm : Option RawFile) :
    (uploadModel tfs tm).isOk = false ↔ pipelineFailsSpec tfs tm = true := by
  unfold uploadModel pipelineFailsSpec combinedLacksKeyCols
  cases hload : load_and_filter_trackman tfs with
  | error e =>
    have hany : tfs.any trackmanFileFails = true := by
      rw [← load_fails_iff, hload]
      rfl
    simp only [hany]
    exact iff_of_true rfl rfl
  | ok t =>
    have hany : tfs.any trackmanFileFails = false := by
      cases hx : tfs.any trackmanFileFails
      · rfl
      · have := (load_fails_iff tfs).mpr hx
        rw [hload] at this
        cases this
    simp only [hany, Bool.false_or]
    cases hcalc : calcScoresTable t with
    | error e =>
      have hc : ((!t.rows.isEmpty) &&
          (!(t.cols.contains "Batter") || !(t.cols.contains "PitchCall"))) = true := by
        rw [← calcScoresTable_fails_iff, hcalc]
        rfl
      simp only [hc]
      exact iff_of_true rfl rfl
    | ok scores =>
      have hc : ((!t.rows.isEmpty) &&
          (!(t.cols.contains "Batter") || !(t.cols.contains "PitchCall"))) = false := by
        cases hx : ((!t.rows.isEmpty) &&
            (!(t.cols.contains "Batter") || !(t.cols.contains "PitchCall")))
        · rfl
        · have := (calcScoresTable_fails_iff t).mpr hx
          rw [hcalc] at this
          cases this
      simp only [hc, Bool.false_or]
      cases tm with
      | none => simp [isOk_error, trumediaBad]
      | some f =>
        simp only [trumediaBad]
        cases hm : mergeStep f (score_map (score_df scores)) with
        | error e =>
          have h3 := (mergeStep_fails_iff f (score_map (score_df scores))).mp
            (by rw [hm]; rfl)
          simp only [h3]
          simp [isOk_error]
        | ok merged =>
          have h3 : ((!(f.headers.contains "playerFullName")) ||
              (!(f.headers.contains "playerFirstName"))) = false := by
            cases hx : ((!(f.headers.contains "playerFullName")) ||
                (!(f.headers.contains "playerFirstName")))
            · rfl
            · have := (mergeStep_fails_iff f (score_map (score_df scores))).mpr hx
              rw [hm] at this
              cases this
          simp only [h3]
          exact iff_of_false (by simp [isOk_ok]) (by simp)

/-- C8 counterexample: all inputs parseable and the second dataset has
both required columns, yet the run fails — a pitch file without a
Batter column crashes `dropna`.  The claim's "if and only if" is
false as stated. -/
theorem pipeline_failure_counterexample :
    (uploadModel [some noBatterFile] (some tmShort)).isOk = false ∧
    "playerFirstName" ∈ tmShort.headers ∧ "playerFullName" ∈ tmShort.headers := by
  refine ⟨?_, ?_, ?_⟩ <;> with_unfolding_all decide
